import Mathlib

/-!
Verification development for the tsc-simple repository: a shallow embedding of
the compile orchestration in src/tsc-simple.ts and of the virtual system overlay
in src/simple-sys.ts, followed by theorems settling the frozen claims about it.

The external compiler engine (the TypeScript library) is out of scope of the
repository; it is modelled as opaque data: a `Program` value records the answers
the engine gives to the diagnostic queries the orchestrator makes, an
`EngineCall` value records, for one invocation of the program constructor, which
on-disk file names the engine loads through the host and which writes its emit
phase routes through the host.
-/

namespace TscSimple

/-- A parsed source tree, as produced by the engine factory
`ts.createSourceFile(name, text, languageVersion)`.  Only the attributes the
repository code observes are modelled. -/
structure SourceFile where
  fileName : String
  text : String
  languageVersion : Nat
deriving DecidableEq, Repr

/-- Mirror of `ts.createSourceFile` as the repository uses it (an opaque engine
factory; the tree itself is not modelled, only its observable attributes). -/
def createSourceFile (fileName text : String) (languageVersion : Nat) : SourceFile :=
  { fileName := fileName, text := text, languageVersion := languageVersion }

/-- Severity category of an engine diagnostic (`ts.DiagnosticCategory`). -/
inductive DiagnosticCategory where
  | warning
  | error
  | suggestion
  | message
deriving DecidableEq, Repr

/-- The human-readable enum name, as `ts.DiagnosticCategory[d.category]`
produces it. -/
def DiagnosticCategory.name : DiagnosticCategory → String
  | .warning => "Warning"
  | .error => "Error"
  | .suggestion => "Suggestion"
  | .message => "Message"

/-- An engine diagnostic (`ts.Diagnostic`), with the attributes the repository
reads: optional originating file, optional character offset, severity category,
numeric code and the (already flattened) message text.  The offset is an `Int`
because the code compares it with `>= 0`. -/
structure TsDiagnostic where
  file : Option SourceFile
  start : Option Int
  category : DiagnosticCategory
  code : Nat
  messageText : String
deriving DecidableEq, Repr

/-- The classification tag `diagnosticType` of src/tsc-simple.ts, recording
which collection call produced a diagnostic. -/
inductive DiagnosticType where
  | option
  | global
  | syntactic
  | semantic
  | declaration
deriving DecidableEq, Repr

/-- The repository's `Diagnostic`: an engine diagnostic spread together with a
`diagnosticType` tag (`{...d, diagnosticType}` in src/tsc-simple.ts). -/
structure Diagnostic where
  base : TsDiagnostic
  diagnosticType : DiagnosticType
deriving DecidableEq, Repr

/-- True exactly on the two tags a parse-only call can produce. -/
def isParseOnlyTag : DiagnosticType → Bool
  | .option => true
  | .syntactic => true
  | _ => false

/-- True exactly on the `declaration` tag. -/
def isDeclTag : DiagnosticType → Bool
  | .declaration => true
  | _ => false

/-- Whether a classified diagnostic carries the `declaration` tag. -/
def isDeclarationTagged (d : Diagnostic) : Bool :=
  isDeclTag d.diagnosticType

/-- Compiler options, restricted to the fields the modelled code reads:
`target` (for the language version) and `declaration` (the declaration-emit
switch the spec talks about). -/
structure CompilerOptions where
  target : Option Nat
  declaration : Bool
deriving DecidableEq, Repr

/-- Mirror of `options.target || ts.ScriptTarget.ES2015` from
`compileOrParseMap` (src/tsc-simple.ts line 240).  `ts.ScriptTarget.ES2015 = 2`;
`ES3 = 0` is falsy in the source language, so a configured target of `0` also
falls through to `2`. -/
def languageVersionOf (o : CompilerOptions) : Nat :=
  match o.target with
  | some t => if t = 0 then 2 else t
  | none => 2

/-- The per-instance configuration resolved at construction time by
`createCompiler`: the explicit on-disk file list from the tsconfig and the
resolved options. -/
structure CompilerConfig where
  fileNames : List String
  options : CompilerOptions

/-- Answers of the external engine for one constructed program: the queries
`getSourceFiles`, `getOptionsDiagnostics`, `getGlobalDiagnostics`,
`getSyntacticDiagnostics`, `getSemanticDiagnostics`,
`getDeclarationDiagnostics`, and the (name, text) writes its `emit()` routes
through the host's `writeFile`. -/
structure Program where
  sourceFiles : List SourceFile
  optionsDiagnostics : List TsDiagnostic
  globalDiagnostics : List TsDiagnostic
  syntacticDiagnostics : SourceFile → List TsDiagnostic
  semanticDiagnostics : SourceFile → List TsDiagnostic
  declarationDiagnostics : SourceFile → List TsDiagnostic
  emitWrites : List (String × String)

/-- Opaque behaviour of one `ts.createProgram` invocation: the on-disk file
names the engine loads through `host.getSourceFile` while building the program,
and the resulting program. -/
structure EngineCall where
  requested : List String
  program : Program

/-- Observable effect state of the write channels: writes that reached the real
system, and (path, text) pairs delivered to the caller-supplied output sink. -/
@[ext]
structure WriteState where
  disk : List (String × String)
  sunk : List (String × String)
deriving DecidableEq, Repr

/-- The real system's `writeFile` (ts.sys.writeFile): persists bytes to disk.
Present to give the `disk` channel its meaning; no function of the modelled
repository code ever calls it. -/
def realSysWriteFile (st : WriteState) (name text : String) : WriteState :=
  { st with disk := st.disk ++ [(name, text)] }

/-- Mirror of the host's write interception in `getCompilerHost`
(src/tsc-simple.ts line 154): `(name, text) => onWrite ? onWrite(name, text) :
void 0`.  `hasSink` records whether an `onWrite` sink was supplied. -/
def hostWriteFile (hasSink : Bool) (st : WriteState) (name text : String) : WriteState :=
  if hasSink then { st with sunk := st.sunk ++ [(name, text)] } else st

/-- Mirror of the overlay's write interception in `createSimpleSys`
(src/simple-sys.ts lines 28-30): `onWrite && onWrite(path, data)`. -/
def simpleSysWriteFile (hasSink : Bool) (st : WriteState) (path data : String) : WriteState :=
  if hasSink then { st with sunk := st.sunk ++ [(path, data)] } else st

/-- A sequence of writes performed by the engine through the host's
`writeFile`. -/
def performWrites (hasSink : Bool) : WriteState → List (String × String) → WriteState
  | st, [] => st
  | st, (n, t) :: rest => performWrites hasSink (hostWriteFile hasSink st n t) rest

/-- Whether the first character list is an initial segment of the second
(explicit model of string prefix testing, kept kernel-reducible). -/
def charsStart : List Char → List Char → Bool
  | [], _ => true
  | _ :: _, [] => false
  | p :: ps, c :: cs => p = c && charsStart ps cs

/-- Model of the source language's `s.indexOf(c) >= 0` membership test. -/
def strContains (s : String) (c : Char) : Bool :=
  s.toList.contains c

/-- Model of `s.startsWith(p)`. -/
def strStartsWith (s p : String) : Bool :=
  charsStart p.toList s.toList

/-- Model of `s.endsWith(p)`. -/
def strEndsWith (s p : String) : Bool :=
  charsStart p.toList.reverse s.toList.reverse

/-- Model of `s.substring(n)`. -/
def strDrop (s : String) (n : Nat) : String :=
  String.mk (s.toList.drop n)

/-- The character length of a string, via its character list. -/
def strLength (s : String) : Nat :=
  s.toList.length

/-- Mirror of the in-memory source name validation of `createSimpleSys`
(src/simple-sys.ts lines 6-12): the first name containing a directory
separator makes construction throw. -/
def checkSourceNames : List String → Except String Unit
  | [] => .ok ()
  | n :: rest =>
    if strContains n '/' then .error ("source name may not contain /: " ++ n)
    else checkSourceNames rest

/-- Mirror of `getRelativeCwdName` (src/simple-sys.ts lines 44-54); `cwd` is
already slash-terminated as the overlay constructor arranges. -/
def getRelativeCwdName (cwd path : String) : Option String :=
  if strStartsWith path "./" then some (strDrop path 2)
  else if strStartsWith path cwd then some (strDrop path (strLength cwd))
  else if !strStartsWith path "/" then some path
  else none

/-- Outcome of one `system.readFile(name)` call: a returned string, a thrown
error (with its message), or the `undefined` the system returns when the file
does not exist. -/
inductive ReadResult where
  | ok (text : String)
  | err (msg : String)
  | missing
deriving DecidableEq, Repr

/-- One entry of the per-call in-memory source map of `compileOrParseMap`:
the raw text together with its parsed tree. -/
structure SourceText where
  text : String
  sourceFile : SourceFile
deriving DecidableEq, Repr

/-- The per-call in-memory source map (`SourceTexts` in src/tsc-simple.ts).
Insertion order is kept, as the source-language `Map` keeps it. -/
abbrev SourceTexts := List (String × SourceText)

/-- The permanent on-disk source cache (`permanentSourceFiles` in
src/tsc-simple.ts line 68), keyed by file name, shared across calls. -/
abbrev PermMap := List (String × SourceFile)

/-- Mirror of `getPermanentSourceFile` (src/tsc-simple.ts lines 70-93).
`sysRead` is the underlying system's `readFile`; `hasOnError` records whether
the engine passed a per-file error callback; the returned list holds the
messages reported through that callback.  An `Except.error` models the `throw
new Error(message)` the code performs when the read reports a missing file and
no callback was given. -/
def getPermanentSourceFile (sysRead : String → ReadResult) (perm : PermMap)
    (fileName : String) (languageVersion : Nat) (hasOnError : Bool) :
    Except String (SourceFile × PermMap × List String) :=
  match perm.lookup fileName with
  | some sf => .ok (sf, perm, [])
  | none =>
    match sysRead fileName with
    | .ok t =>
      let sf := createSourceFile fileName t languageVersion
      .ok (sf, perm ++ [(fileName, sf)], [])
    | .err m =>
      let sf := createSourceFile fileName "" languageVersion
      .ok (sf, perm ++ [(fileName, sf)], if hasOnError then [m] else [])
    | .missing =>
      let message := "error reading file " ++ fileName
      if hasOnError then
        let sf := createSourceFile fileName "" languageVersion
        .ok (sf, perm ++ [(fileName, sf)], [message])
      else
        .error message

/-- Mirror of the host-level `getSourceFile` (src/tsc-simple.ts lines 95-102):
the in-memory map shadows the permanent on-disk cache. -/
def hostGetSourceFile (sysRead : String → ReadResult) (sourceTexts : SourceTexts)
    (perm : PermMap) (fileName : String) (languageVersion : Nat) (hasOnError : Bool) :
    Except String (SourceFile × PermMap × List String) :=
  match sourceTexts.lookup fileName with
  | some st => .ok (st.sourceFile, perm, [])
  | none => getPermanentSourceFile sysRead perm fileName languageVersion hasOnError

/-- The on-disk loads the engine performs through `host.getSourceFile` while
constructing a program, threaded through the permanent cache.  The engine
supplies a per-file error callback during program construction, so the
error branch of `getPermanentSourceFile` cannot fire. -/
def loadRequested (sysRead : String → ReadResult) (sourceTexts : SourceTexts)
    (languageVersion : Nat) : PermMap → List String → PermMap
  | perm, [] => perm
  | perm, n :: rest =>
    match hostGetSourceFile sysRead sourceTexts perm n languageVersion true with
    | .ok (_, perm2, _) => loadRequested sysRead sourceTexts languageVersion perm2 rest
    | .error _ => loadRequested sysRead sourceTexts languageVersion perm rest

/-- Fuelled scan computing (line, column) of a character offset. -/
def lineColAux : List Char → Nat → Nat → Nat → Nat × Nat
  | _, 0, line, col => (line, col)
  | [], _ + 1, line, col => (line, col)
  | c :: rest, k + 1, line, col =>
    if c = '\n' then lineColAux rest k (line + 1) 0
    else lineColAux rest k line (col + 1)

/-- Model of `sourceFile.getLineAndCharacterOfPosition(start)`: zero-based line
and column of a character offset within the file's text. -/
def getLineAndCharacterOfPosition (sf : SourceFile) (pos : Nat) : Nat × Nat :=
  lineColAux sf.text.toList pos 0 0

/-- The file-name part of a formatted diagnostic (`fileName` local of
`formatDiagnostic`, src/tsc-simple.ts lines 172-175): empty without a file,
the literal token when the file is the distinguished synthetic source file of
a single-string call, the file's own name otherwise. -/
def diagnosticFileName (d : TsDiagnostic) (sourceFile : Option SourceFile) : String :=
  match d.file with
  | none => ""
  | some f =>
    match sourceFile with
    | some sf => if f = sf then "<source>" else f.fileName
    | none => f.fileName

/-- The line/column part of a formatted diagnostic (`lineCol` local of
`formatDiagnostic`, src/tsc-simple.ts lines 176-179): present only when the
diagnostic has a file and a non-negative character offset. -/
def diagnosticLineCol (d : TsDiagnostic) : String :=
  match d.file, d.start with
  | some f, some s =>
    if 0 ≤ s then
      let p := getLineAndCharacterOfPosition f s.toNat
      "(" ++ toString (p.1 + 1) ++ "," ++ toString (p.2 + 1) ++ "): "
    else ""
  | _, _ => ""

/-- Mirror of `formatDiagnostic` (src/tsc-simple.ts lines 171-184).  The
message is already flat (`ts.flattenDiagnosticMessageText` is the engine's). -/
def formatDiagnostic (d : TsDiagnostic) (sourceFile : Option SourceFile) : String :=
  diagnosticFileName d sourceFile ++ diagnosticLineCol d ++
    d.category.name ++ " TS" ++ toString d.code ++ ": " ++ d.messageText

/-- Mirror of `getProgramDiagnostics` (src/tsc-simple.ts lines 190-203):
option diagnostics always; global only when not parse-only; per source file
syntactic always, and when not parse-only also semantic and declaration, in
that push order. -/
def getProgramDiagnostics (program : Program) (parseOnly : Bool) : List Diagnostic :=
  (program.optionsDiagnostics.map fun d => { base := d, diagnosticType := .option })
    ++ (if parseOnly then []
        else program.globalDiagnostics.map fun d => { base := d, diagnosticType := .global })
    ++ program.sourceFiles.flatMap fun sf =>
        ((program.syntacticDiagnostics sf).map fun d => { base := d, diagnosticType := .syntactic })
          ++ (if parseOnly then []
              else ((program.semanticDiagnostics sf).map fun d =>
                      { base := d, diagnosticType := .semantic })
                ++ ((program.declarationDiagnostics sf).map fun d =>
                      { base := d, diagnosticType := .declaration }))

/-- Mirror of `getSourceFileNames` (src/tsc-simple.ts lines 205-207): the
in-memory names of the call followed by the keys of the permanent cache. -/
def getSourceFileNames (sourceTexts : SourceTexts) (perm : PermMap) : List String :=
  sourceTexts.map Prod.fst ++ perm.map Prod.fst

/-- Mirror of `getDefaultLibFileName` of the host (src/tsc-simple.ts line 155):
`(defaultLibLocation ? defaultLibLocation + "/" : "") + (defaultLibFileName ||
"lib.d.ts")`, with the source language's empty string being falsy. -/
def getDefaultLibFileName (defaultLibLocation defaultLibFileName : Option String) : String :=
  (match defaultLibLocation with
   | some l => if l = "" then "" else l ++ "/"
   | none => "")
    ++ (match defaultLibFileName with
        | some n => if n = "" then "lib.d.ts" else n
        | none => "lib.d.ts")

/-- Mirror of `ts.getDirectoryPath` on an already-normalized path: everything
before the last separator (empty when there is none). -/
def getDirectoryPath (p : String) : String :=
  match (p.toList.reverse.dropWhile fun c => c ≠ '/') with
  | [] => ""
  | _ :: rest => String.mk rest.reverse

/-- Mirror of `getDefaultLibLocation` of the host-adapter variant in
src/simple-sys.ts (lines 257-259): the default-library directory derived from
the path of the running engine's own executable (`sys.getExecutingFilePath()`);
`ts.normalizePath` is modelled for already-normalized paths. -/
def getDefaultLibLocationFromExecutable (executingFilePath : String) : String :=
  getDirectoryPath executingFilePath

/-- The decision whether the containing file is an in-memory source
(`lookInSourceTexts` of `resolveModuleNames`, src/tsc-simple.ts lines 125-136):
the containing file starts with the slash-terminated current directory and the
remainder is a key of the in-memory map. -/
def inMemoryContainingFile (sourceTexts : SourceTexts) (cwd containingFile : String) : Bool :=
  let p := if strEndsWith cwd "/" then cwd else cwd ++ "/"
  strStartsWith containingFile p
    && (sourceTexts.lookup (strDrop containingFile (strLength p))).isSome

/-- The per-specifier resolution body of `resolveModuleNames`
(src/tsc-simple.ts lines 138-148).  `engineResolve` is the engine's standard
algorithm `ts.resolveModuleName` (opaque). -/
def resolveModuleName1 (sourceTexts : SourceTexts) (lookInSourceTexts : Bool)
    (engineResolve : String → String → Option String)
    (containingFile moduleName : String) : Option String :=
  if lookInSourceTexts then
    if (sourceTexts.lookup (moduleName ++ ".ts")).isSome then some (moduleName ++ ".ts")
    else if (sourceTexts.lookup (moduleName ++ ".d.ts")).isSome then some (moduleName ++ ".d.ts")
    else engineResolve moduleName containingFile
  else engineResolve moduleName containingFile

/-- Mirror of `resolveModuleNames` (src/tsc-simple.ts lines 124-149). -/
def resolveModuleNames (sourceTexts : SourceTexts) (cwd : String)
    (engineResolve : String → String → Option String)
    (moduleNames : List String) (containingFile : String) : List (Option String) :=
  moduleNames.map
    (resolveModuleName1 sourceTexts (inMemoryContainingFile sourceTexts cwd containingFile)
      engineResolve containingFile)

/-- The construction of the per-call in-memory map at the top of
`compileOrParseMap` (src/tsc-simple.ts lines 241-244): each (name, text) pair
is stored together with its parsed tree. -/
def mkSourceTexts (sources : List (String × String)) (languageVersion : Nat) : SourceTexts :=
  sources.map fun p =>
    (p.1, { text := p.2, sourceFile := createSourceFile p.1 p.2 languageVersion })

/-- The observable outcome of one `compileOrParseMap` call: the program the
engine returned, the root names handed to the engine's program constructor,
the classified diagnostics, the call's in-memory map and language version, the
permanent cache after the call, whether `program.emit()` was invoked, and the
effect state of the write channels. -/
structure CallResult where
  program : Program
  rootNames : List String
  diagnostics : List Diagnostic
  sourceTexts : SourceTexts
  languageVersion : Nat
  permAfter : PermMap
  emitCalled : Bool
  writes : WriteState

/-- The `getSourceFileNames` closure of the returned result
(src/tsc-simple.ts line 253), read against the cache as of the end of the
call. -/
def CallResult.resGetSourceFileNames (r : CallResult) : List String :=
  getSourceFileNames r.sourceTexts r.permAfter

/-- The `getSourceFile` closure of the returned result (src/tsc-simple.ts
line 254): the host lookup with no error callback. -/
def CallResult.resGetSourceFile (sysRead : String → ReadResult) (r : CallResult)
    (name : String) : Except String (SourceFile × PermMap × List String) :=
  hostGetSourceFile sysRead r.sourceTexts r.permAfter name r.languageVersion false

/-- The `formatDiagnostic` closure of a map-shaped result (src/tsc-simple.ts
line 252): no distinguished source file is bound. -/
def CallResult.resFormatDiagnostic (_ : CallResult) (d : TsDiagnostic) : String :=
  formatDiagnostic d none

/-- Mirror of `compileOrParseMap` (src/tsc-simple.ts lines 239-256).  `engine`
is the opaque behaviour of the `ts.createProgram` invocation, `perm` the
permanent cache coming into the call, `hasSink` whether an `onWrite` sink was
supplied. -/
def compileOrParseMap (cfg : CompilerConfig) (sysRead : String → ReadResult)
    (engine : EngineCall) (perm : PermMap) (sources : List (String × String))
    (hasSink parseOnly : Bool) : CallResult :=
  let languageVersion := languageVersionOf cfg.options
  let sourceTexts := mkSourceTexts sources languageVersion
  let rootNames := cfg.fileNames ++ sourceTexts.map Prod.fst
  let permAfter := loadRequested sysRead sourceTexts languageVersion perm engine.requested
  let writes :=
    if parseOnly then { disk := [], sunk := [] }
    else performWrites hasSink { disk := [], sunk := [] } engine.program.emitWrites
  { program := engine.program
    rootNames := rootNames
    diagnostics := getProgramDiagnostics engine.program parseOnly
    sourceTexts := sourceTexts
    languageVersion := languageVersion
    permAfter := permAfter
    emitCalled := !parseOnly
    writes := writes }

/-- The single-string result shape (`CompileResult` of src/tsc-simple.ts):
the map-shaped result extended with the distinguished synthetic source file. -/
structure CompileResult where
  base : CallResult
  sourceFile : SourceFile

/-- The overriding `formatDiagnostic` closure of a single-string result
(src/tsc-simple.ts line 221): the distinguished file is bound for the
literal-token substitution. -/
def CompileResult.resFormatDiagnostic (r : CompileResult) (d : TsDiagnostic) : String :=
  formatDiagnostic d (some r.sourceFile)

/-- Mirror of `compileOrParseSource` (src/tsc-simple.ts lines 214-223): wrap
the single string as the one in-memory entry under the fixed synthetic name,
then look that entry up as the distinguished source file.  The error case
models `getSourceFile` throwing, which for the synthetic name cannot occur. -/
def compileOrParseSource (cfg : CompilerConfig) (sysRead : String → ReadResult)
    (engine : EngineCall) (perm : PermMap) (source : String)
    (hasSink parseOnly : Bool) : Except String CompileResult :=
  let r := compileOrParseMap cfg sysRead engine perm [("$.ts", source)] hasSink parseOnly
  match hostGetSourceFile sysRead r.sourceTexts r.permAfter "$.ts" r.languageVersion false with
  | .ok (sf, _, _) => .ok { base := r, sourceFile := sf }
  | .error m => .error m

/-- Mirror of `compile` (src/tsc-simple.ts lines 225-227). -/
def compile (cfg : CompilerConfig) (sysRead : String → ReadResult) (engine : EngineCall)
    (perm : PermMap) (source : String) (hasSink : Bool) : Except String CompileResult :=
  compileOrParseSource cfg sysRead engine perm source hasSink false

/-- Mirror of `parse` (src/tsc-simple.ts lines 229-231): parse-only and no
output sink. -/
def parse (cfg : CompilerConfig) (sysRead : String → ReadResult) (engine : EngineCall)
    (perm : PermMap) (source : String) : Except String CompileResult :=
  compileOrParseSource cfg sysRead engine perm source false true

/-- Mirror of `compileMap` (src/tsc-simple.ts lines 258-260). -/
def compileMap (cfg : CompilerConfig) (sysRead : String → ReadResult) (engine : EngineCall)
    (perm : PermMap) (sources : List (String × String)) (hasSink : Bool) : CallResult :=
  compileOrParseMap cfg sysRead engine perm sources hasSink false

/-- The key evolution of the permanent cache for one requested on-disk name:
unchanged when the name is in-memory or already cached, appended otherwise. -/
def insertRequestedName (sourceNames : List String) (keys : List String) (n : String) :
    List String :=
  if sourceNames.contains n || keys.contains n then keys else keys ++ [n]

/-- A program with no source files, no diagnostics and no emit writes. -/
def emptyProgram : Program :=
  { sourceFiles := []
    optionsDiagnostics := []
    globalDiagnostics := []
    syntacticDiagnostics := fun _ => []
    semanticDiagnostics := fun _ => []
    declarationDiagnostics := fun _ => []
    emitWrites := [] }

/-- A configuration with no tsconfig: empty explicit file list, default
options (no target, declaration off). -/
def defaultConfig : CompilerConfig :=
  { fileNames := [], options := { target := none, declaration := false } }

/-- A system capability on which every read reports a missing file, as for a
default-library name that does not exist on disk. -/
def sysAllMissing : String → ReadResult := fun _ => ReadResult.missing

/-- The synthetic source file a single-string call builds for the input
`let x = z + 2` under the default language version. -/
def sfSynthetic : SourceFile := createSourceFile "$.ts" "let x = z + 2" 2

/-- The semantic diagnostic the engine reports at offset 8 of `let x = z + 2`
(code 2304, cannot find name). -/
def diagCannotFindName : TsDiagnostic :=
  { file := some sfSynthetic
    start := some 8
    category := .error
    code := 2304
    messageText := "Cannot find name z." }

/-- A declaration-emit diagnostic (code 4025) on the synthetic file. -/
def diagDeclEmit : TsDiagnostic :=
  { file := some sfSynthetic
    start := some 0
    category := .error
    code := 4025
    messageText := "Exported variable has or is using private name." }

/-- An engine answer whose declaration-diagnostic query is non-empty: the
engine computes declaration diagnostics on demand whether or not the
declaration-emit option is set. -/
def progDecl : Program :=
  { sourceFiles := [sfSynthetic]
    optionsDiagnostics := []
    globalDiagnostics := []
    syntacticDiagnostics := fun _ => []
    semanticDiagnostics := fun _ => []
    declarationDiagnostics := fun _ => [diagDeclEmit]
    emitWrites := [] }

/-- An in-memory map with two sources importing one another by logical name. -/
def stsImports : SourceTexts :=
  mkSourceTexts [("A.ts", "export class A"), ("B.ts", "import A from A")] 2

/-! ## General lemmas about the embedding -/

theorem performWrites_false (st : WriteState) (ws : List (String × String)) :
    performWrites false st ws = st := by
  induction ws generalizing st with
  | nil => rfl
  | cons w rest ih =>
    cases w with
    | mk n t => simpa [performWrites, hostWriteFile] using ih st

theorem performWrites_disk (hasSink : Bool) (st : WriteState) (ws : List (String × String)) :
    (performWrites hasSink st ws).disk = st.disk := by
  induction ws generalizing st with
  | nil => rfl
  | cons w rest ih =>
    cases w with
    | mk n t =>
      cases hasSink with
      | false => simp [performWrites, hostWriteFile, ih]
      | true => simp [performWrites, hostWriteFile, ih]

theorem performWrites_sunk_true (st : WriteState) (ws : List (String × String)) :
    (performWrites true st ws).sunk = st.sunk ++ ws := by
  induction ws generalizing st with
  | nil => simp [performWrites]
  | cons w rest ih =>
    cases w with
    | mk n t => simp [performWrites, hostWriteFile, ih]

theorem compileOrParseSource_eq (cfg : CompilerConfig) (sysRead : String → ReadResult)
    (engine : EngineCall) (perm : PermMap) (source : String) (hasSink parseOnly : Bool) :
    compileOrParseSource cfg sysRead engine perm source hasSink parseOnly
      = .ok { base := compileOrParseMap cfg sysRead engine perm [("$.ts", source)]
                hasSink parseOnly,
              sourceFile := createSourceFile "$.ts" source (languageVersionOf cfg.options) } :=
  rfl

theorem lookup_isSome_eq_contains {β : Type} (l : List (String × β)) (k : String) :
    (l.lookup k).isSome = (l.map Prod.fst).contains k := by
  induction l with
  | nil => rfl
  | cons p t ih =>
    cases p with
    | mk a b =>
      by_cases h : k = a
      · subst h; simp [List.lookup]
      · have hba : (k == a) = false := by simp [h]
        simp [List.lookup, hba, ih]

theorem mkSourceTexts_keys (sources : List (String × String)) (lv : Nat) :
    (mkSourceTexts sources lv).map Prod.fst = sources.map Prod.fst := by
  simp [mkSourceTexts, List.map_map]

theorem loadRequested_keys (sysRead : String → ReadResult) (sts : SourceTexts) (lv : Nat)
    (req : List String) (perm : PermMap) :
    (loadRequested sysRead sts lv perm req).map Prod.fst
      = req.foldl (insertRequestedName (sts.map Prod.fst)) (perm.map Prod.fst) := by
  induction req generalizing perm with
  | nil => rfl
  | cons n rest ih =>
    have hsts := lookup_isSome_eq_contains sts n
    have hperm := lookup_isSome_eq_contains perm n
    rw [List.foldl_cons]
    cases h1 : sts.lookup n with
    | some st =>
      have hc : (sts.map Prod.fst).contains n = true := by rw [← hsts, h1]; rfl
      have hins : insertRequestedName (sts.map Prod.fst) (perm.map Prod.fst) n
          = perm.map Prod.fst := by
        unfold insertRequestedName
        rw [hc]
        rfl
      have hstep : loadRequested sysRead sts lv perm (n :: rest)
          = loadRequested sysRead sts lv perm rest := by
        simp [loadRequested, hostGetSourceFile, h1]
      rw [hstep, ih, hins]
    | none =>
      have hc1 : (sts.map Prod.fst).contains n = false := by rw [← hsts, h1]; rfl
      cases h2 : perm.lookup n with
      | some sf =>
        have hc2 : (perm.map Prod.fst).contains n = true := by rw [← hperm, h2]; rfl
        have hins : insertRequestedName (sts.map Prod.fst) (perm.map Prod.fst) n
            = perm.map Prod.fst := by
          unfold insertRequestedName
          rw [hc1, hc2]
          rfl
        have hstep : loadRequested sysRead sts lv perm (n :: rest)
            = loadRequested sysRead sts lv perm rest := by
          simp [loadRequested, hostGetSourceFile, getPermanentSourceFile, h1, h2]
        rw [hstep, ih, hins]
      | none =>
        have hc2 : (perm.map Prod.fst).contains n = false := by rw [← hperm, h2]; rfl
        have hins : insertRequestedName (sts.map Prod.fst) (perm.map Prod.fst) n
            = perm.map Prod.fst ++ [n] := by
          unfold insertRequestedName
          rw [hc1, hc2]
          rfl
        cases h3 : sysRead n with
        | ok t =>
          have hstep : loadRequested sysRead sts lv perm (n :: rest)
              = loadRequested sysRead sts lv
                  (perm ++ [(n, createSourceFile n t lv)]) rest := by
            simp [loadRequested, hostGetSourceFile, getPermanentSourceFile, h1, h2, h3]
          rw [hstep, ih, hins]
          simp [List.map_append]
        | err m =>
          have hstep : loadRequested sysRead sts lv perm (n :: rest)
              = loadRequested sysRead sts lv
                  (perm ++ [(n, createSourceFile n "" lv)]) rest := by
            simp [loadRequested, hostGetSourceFile, getPermanentSourceFile, h1, h2, h3]
          rw [hstep, ih, hins]
          simp [List.map_append]
        | missing =>
          have hstep : loadRequested sysRead sts lv perm (n :: rest)
              = loadRequested sysRead sts lv
                  (perm ++ [(n, createSourceFile n "" lv)]) rest := by
            simp [loadRequested, hostGetSourceFile, getPermanentSourceFile, h1, h2, h3]
          rw [hstep, ih, hins]
          simp [List.map_append]

theorem getProgramDiagnostics_parseOnly_tags (p : Program) :
    (getProgramDiagnostics p true).all (fun d => isParseOnlyTag d.diagnosticType) = true := by
  rw [List.all_eq_true]
  intro d hd
  rcases List.mem_append.mp hd with h1 | h2
  · rcases List.mem_append.mp h1 with ho | hg
    · rcases List.mem_map.mp ho with ⟨x, _, rfl⟩
      rfl
    · simp at hg
  · rcases List.mem_flatMap.mp h2 with ⟨sf, _, hin⟩
    rcases List.mem_append.mp hin with hs | hrest
    · rcases List.mem_map.mp hs with ⟨x, _, rfl⟩
      rfl
    · simp at hrest

theorem performWrites_true_from_empty (ws : List (String × String)) :
    performWrites true { disk := [], sunk := [] } ws = { disk := [], sunk := ws } := by
  ext : 1
  · rw [performWrites_disk]
  · rw [performWrites_sunk_true]
    rfl

theorem compileOrParseMap_writes (cfg : CompilerConfig) (sysRead : String → ReadResult)
    (engine : EngineCall) (perm : PermMap) (sources : List (String × String))
    (hasSink parseOnly : Bool) :
    (compileOrParseMap cfg sysRead engine perm sources hasSink parseOnly).writes
      = if parseOnly then { disk := [], sunk := [] }
        else { disk := [], sunk := if hasSink then engine.program.emitWrites else [] } := by
  cases parseOnly with
  | true => rfl
  | false =>
    cases hasSink with
    | false =>
      show performWrites false { disk := [], sunk := [] } engine.program.emitWrites = _
      rw [performWrites_false]
      rfl
    | true =>
      show performWrites true { disk := [], sunk := [] } engine.program.emitWrites = _
      rw [performWrites_true_from_empty]
      rfl

theorem filter_decl_map_tag (ds : List TsDiagnostic) (t : DiagnosticType) :
    ((ds.map fun d => ({ base := d, diagnosticType := t } : Diagnostic)).filter
        isDeclarationTagged)
      = if isDeclTag t then ds.map fun d => ({ base := d, diagnosticType := t } : Diagnostic)
        else [] := by
  induction ds with
  | nil => cases h : isDeclTag t <;> simp [h]
  | cons d rest ih =>
    cases h : isDeclTag t with
    | false =>
      rw [h] at ih
      simp only [List.map_cons, List.filter_cons, isDeclarationTagged, h, if_neg] at ih ⊢
      simpa [h] using ih
    | true =>
      rw [h] at ih
      simp only [List.map_cons, List.filter_cons, isDeclarationTagged, h] at ih ⊢
      simpa [h] using ih

theorem filter_flatMap {α β : Type} (l : List α) (g : α → List β) (p : β → Bool) :
    (l.flatMap g).filter p = l.flatMap fun a => (g a).filter p := by
  induction l with
  | nil => rfl
  | cons a rest ih => simp [List.flatMap_cons, List.filter_append, ih]

theorem map_flatMap_fn {α β γ : Type} (l : List α) (g : α → List β) (f : β → γ) :
    (l.flatMap g).map f = l.flatMap fun a => (g a).map f := by
  induction l with
  | nil => rfl
  | cons a rest ih => simp [List.flatMap_cons, List.map_append, ih]

theorem map_base_map_tag (ds : List TsDiagnostic) (t : DiagnosticType) :
    ((ds.map fun d => ({ base := d, diagnosticType := t } : Diagnostic)).map Diagnostic.base)
      = ds := by
  induction ds with
  | nil => rfl
  | cons d rest ih => simp only [List.map_cons, ih]

theorem map_base_comp_tag (ds : List TsDiagnostic) (t : DiagnosticType) :
    ds.map (Diagnostic.base ∘ fun d => ({ base := d, diagnosticType := t } : Diagnostic))
      = ds := by
  induction ds with
  | nil => rfl
  | cons d rest ih => simp only [List.map_cons, ih]; rfl

/-! ## Claims -/

/-- Claim C1: for every call to compile, parse, or compileMap, the real
system's writeFile is never invoked — the `disk` channel stays empty — and
every write the engine performs is delivered to the caller-supplied output
sink as a (path, text) pair when a sink was supplied and silently discarded
otherwise, both through the host's `writeFile` and through the overlay's. -/
theorem writes_route_to_sink_only (cfg : CompilerConfig) (sysRead : String → ReadResult)
    (engine : EngineCall) (perm : PermMap) (sources : List (String × String))
    (src : String) (hasSink parseOnly : Bool) :
    ((compileOrParseMap cfg sysRead engine perm sources hasSink parseOnly).writes.disk = []
      ∧ (compileOrParseMap cfg sysRead engine perm sources hasSink parseOnly).writes.sunk
          = (if parseOnly then []
             else if hasSink then engine.program.emitWrites else []))
    ∧ (∀ (st : WriteState) (n t : String),
        (hostWriteFile true st n t).disk = st.disk
          ∧ (hostWriteFile true st n t).sunk = st.sunk ++ [(n, t)]
          ∧ hostWriteFile false st n t = st)
    ∧ (∀ (st : WriteState) (n t : String),
        (simpleSysWriteFile true st n t).disk = st.disk
          ∧ (simpleSysWriteFile true st n t).sunk = st.sunk ++ [(n, t)]
          ∧ simpleSysWriteFile false st n t = st)
    ∧ (∃ r, compile cfg sysRead engine perm src hasSink = .ok r
        ∧ r.base.writes.disk = []
        ∧ r.base.writes.sunk = (if hasSink then engine.program.emitWrites else []))
    ∧ (∃ r, parse cfg sysRead engine perm src = .ok r
        ∧ r.base.writes = { disk := [], sunk := [] }) := by
  refine ⟨⟨?_, ?_⟩, fun st n t => ⟨rfl, rfl, rfl⟩, fun st n t => ⟨rfl, rfl, rfl⟩, ?_, ?_⟩
  · rw [compileOrParseMap_writes]
    cases parseOnly <;> rfl
  · rw [compileOrParseMap_writes]
    cases parseOnly <;> rfl
  · refine ⟨_, compileOrParseSource_eq cfg sysRead engine perm src hasSink false, ?_, ?_⟩
    · show (compileOrParseMap cfg sysRead engine perm [("$.ts", src)] hasSink false).writes.disk
        = []
      rw [compileOrParseMap_writes]
      rfl
    · show (compileOrParseMap cfg sysRead engine perm [("$.ts", src)] hasSink false).writes.sunk
        = _
      rw [compileOrParseMap_writes]
      rfl
  · exact ⟨_, compileOrParseSource_eq cfg sysRead engine perm src false true, rfl⟩

/-- Claim C2 (amended): `getSourceFileNames()` on the result of a call yields
the in-memory source names of that call followed by the keys of the permanent
cache after the call — that is, the cache coming into the call extended, in
request order, by every on-disk name the engine loaded through the host that
is neither in-memory nor already cached.  This coincides with the claimed
union of in-memory names and explicit configured file names only when the
cache holds exactly the explicit names. -/
theorem getSourceFileNames_sources_and_cache (cfg : CompilerConfig)
    (sysRead : String → ReadResult) (engine : EngineCall) (perm : PermMap)
    (sources : List (String × String)) (hasSink parseOnly : Bool) :
    (compileOrParseMap cfg sysRead engine perm sources hasSink parseOnly).resGetSourceFileNames
      = sources.map Prod.fst
        ++ engine.requested.foldl (insertRequestedName (sources.map Prod.fst))
            (perm.map Prod.fst) := by
  show getSourceFileNames (mkSourceTexts sources (languageVersionOf cfg.options))
      (loadRequested sysRead (mkSourceTexts sources (languageVersionOf cfg.options))
        (languageVersionOf cfg.options) perm engine.requested) = _
  unfold getSourceFileNames
  rw [mkSourceTexts_keys, loadRequested_keys, mkSourceTexts_keys]

/-- Claim C2, counterexample: with no tsconfig the explicit file list is
empty, yet when the engine loads the default library name the host reports
(`lib.d.ts`, which is neither in-memory nor configured), the returned
`getSourceFileNames()` contains it — so the result is not the union of
in-memory names and explicit configured file names. -/
theorem getSourceFileNames_union_cex :
    (compileOrParseMap defaultConfig sysAllMissing
        { requested := [getDefaultLibFileName none none], program := emptyProgram } []
        [("$.ts", "let x = 3 + 2")] false false).resGetSourceFileNames
      = ["$.ts", "lib.d.ts"]
    ∧ defaultConfig.fileNames = []
    ∧ (compileOrParseMap defaultConfig sysAllMissing
        { requested := [getDefaultLibFileName none none], program := emptyProgram } []
        [("$.ts", "let x = 3 + 2")] false false).resGetSourceFileNames
      ≠ ["$.ts"] ++ defaultConfig.fileNames := by
  refine ⟨by decide, rfl, by decide⟩

/-- Claim C3: for every input string, `parse(source)` succeeds and its
diagnostics carry only the `option` or `syntactic` tag, and the program's
emit operation is never invoked (so no writes occur either). -/
theorem parse_diagnostics_option_syntactic_only (cfg : CompilerConfig)
    (sysRead : String → ReadResult) (engine : EngineCall) (perm : PermMap)
    (source : String) :
    ∃ r, parse cfg sysRead engine perm source = .ok r
      ∧ r.base.diagnostics.all (fun d => isParseOnlyTag d.diagnosticType) = true
      ∧ r.base.emitCalled = false
      ∧ r.base.writes = { disk := [], sunk := [] } := by
  refine ⟨_, compileOrParseSource_eq cfg sysRead engine perm source false true, ?_, rfl, rfl⟩
  exact getProgramDiagnostics_parseOnly_tags engine.program

/-- Claim C4 (amended): in a non-parse-only call, declaration diagnostics are
collected for every source file unconditionally — `getProgramDiagnostics`
never consults the declaration-emit option; the declaration-tagged
diagnostics of the result are exactly the engine's declaration diagnostics of
every source file, for every configuration.  Only parse-only calls exclude
them. -/
theorem declaration_diagnostics_collected_unconditionally :
    (∀ p : Program,
        ((getProgramDiagnostics p false).filter isDeclarationTagged).map Diagnostic.base
          = p.sourceFiles.flatMap p.declarationDiagnostics
        ∧ (getProgramDiagnostics p true).filter isDeclarationTagged = [])
    ∧ (∀ (cfg : CompilerConfig) (sysRead : String → ReadResult) (engine : EngineCall)
        (perm : PermMap) (sources : List (String × String)) (hasSink : Bool),
        (compileMap cfg sysRead engine perm sources hasSink).diagnostics
          = getProgramDiagnostics engine.program false) := by
  refine ⟨fun p => ⟨?_, ?_⟩, fun cfg sysRead engine perm sources hasSink => rfl⟩
  · have h : getProgramDiagnostics p false
        = ((p.optionsDiagnostics.map fun d =>
              ({ base := d, diagnosticType := .option } : Diagnostic))
            ++ (p.globalDiagnostics.map fun d =>
                  ({ base := d, diagnosticType := .global } : Diagnostic)))
          ++ p.sourceFiles.flatMap fun sf =>
              ((p.syntacticDiagnostics sf).map fun d =>
                  ({ base := d, diagnosticType := .syntactic } : Diagnostic))
                ++ (((p.semanticDiagnostics sf).map fun d =>
                      ({ base := d, diagnosticType := .semantic } : Diagnostic))
                  ++ ((p.declarationDiagnostics sf).map fun d =>
                        ({ base := d, diagnosticType := .declaration } : Diagnostic))) := rfl
    rw [h]
    simp [List.filter_append, filter_flatMap, filter_decl_map_tag, isDeclTag,
      map_flatMap_fn, map_base_map_tag, map_base_comp_tag]
  · have h : getProgramDiagnostics p true
        = ((p.optionsDiagnostics.map fun d =>
              ({ base := d, diagnosticType := .option } : Diagnostic))
            ++ [])
          ++ p.sourceFiles.flatMap fun sf =>
              ((p.syntacticDiagnostics sf).map fun d =>
                  ({ base := d, diagnosticType := .syntactic } : Diagnostic))
                ++ [] := rfl
    rw [h]
    simp [List.filter_append, filter_flatMap, filter_decl_map_tag, isDeclTag]

/-- Claim C4, counterexample: a non-parse-only `compileMap` call whose
configuration has the declaration-emit option disabled still yields a
diagnostic carrying the `declaration` tag when the engine's declaration query
is non-empty — the code has no guard on `options.declaration`. -/
theorem declaration_tag_without_declaration_option :
    defaultConfig.options.declaration = false
    ∧ ({ base := diagDeclEmit, diagnosticType := .declaration } : Diagnostic)
        ∈ (compileMap defaultConfig sysAllMissing { requested := [], program := progDecl } []
            [("$.ts", "let x = z + 2")] false).diagnostics :=
  ⟨rfl, by decide⟩

/-- Claim C5 (amended): the in-memory name validation lives in the virtual
overlay constructor `createSimpleSys`, which throws at the first name
containing a directory separator; the compile/parse/compileMap path performs
no such validation and always hands the engine's program constructor the
explicit file names followed by the in-memory names exactly as given. -/
theorem slash_check_in_overlay_not_in_compile :
    (∀ names, checkSourceNames names
        = (match names.find? (fun n => strContains n '/') with
           | some n => Except.error ("source name may not contain /: " ++ n)
           | none => Except.ok ()))
    ∧ (∀ (cfg : CompilerConfig) (sysRead : String → ReadResult) (engine : EngineCall)
        (perm : PermMap) (sources : List (String × String)) (hasSink parseOnly : Bool),
        (compileOrParseMap cfg sysRead engine perm sources hasSink parseOnly).rootNames
          = cfg.fileNames ++ sources.map Prod.fst) := by
  constructor
  · intro names
    induction names with
    | nil => rfl
    | cons n rest ih =>
      cases h : strContains n '/' with
      | true => simp [checkSourceNames, List.find?, h]
      | false =>
        simp only [checkSourceNames, List.find?, h]
        rw [if_neg (by simp [h])]
        exact ih
  · intro cfg sysRead engine perm sources hasSink parseOnly
    show cfg.fileNames ++ (mkSourceTexts sources (languageVersionOf cfg.options)).map Prod.fst
      = _
    rw [mkSourceTexts_keys]

/-- Claim C5, counterexample: a `compileMap` call whose in-memory map contains
the name `a/b.ts` does not fail — the engine's program constructor is invoked
with that very name among the root names and the call returns a normal
result. -/
theorem slash_named_source_reaches_engine :
    strContains "a/b.ts" '/' = true
    ∧ (compileMap defaultConfig sysAllMissing { requested := [], program := emptyProgram } []
        [("a/b.ts", "export const x = 1")] false).rootNames = ["a/b.ts"]
    ∧ (compileMap defaultConfig sysAllMissing { requested := [], program := emptyProgram } []
        [("a/b.ts", "export const x = 1")] false).diagnostics = [] := by
  decide

/-- Claim C6 (amended): when the engine supplies a per-file error callback,
a failed read (raising or missing file) is reported through the callback and
the host proceeds with an empty-text source tree; without a callback, a
raising read still silently proceeds with empty text, but a read reporting a
missing file makes `getPermanentSourceFile` abort by throwing
`error reading file <name>`. -/
theorem read_failure_reporting (perm : PermMap) (name : String) (lv : Nat)
    (hnc : perm.lookup name = none) :
    (∀ m, getPermanentSourceFile (fun _ => ReadResult.err m) perm name lv true
        = .ok (createSourceFile name "" lv,
            perm ++ [(name, createSourceFile name "" lv)], [m]))
    ∧ (∀ m, getPermanentSourceFile (fun _ => ReadResult.err m) perm name lv false
        = .ok (createSourceFile name "" lv,
            perm ++ [(name, createSourceFile name "" lv)], []))
    ∧ (getPermanentSourceFile (fun _ => ReadResult.missing) perm name lv true
        = .ok (createSourceFile name "" lv,
            perm ++ [(name, createSourceFile name "" lv)],
            ["error reading file " ++ name]))
    ∧ (getPermanentSourceFile (fun _ => ReadResult.missing) perm name lv false
        = .error ("error reading file " ++ name)) := by
  refine ⟨fun m => ?_, fun m => ?_, ?_, ?_⟩ <;> simp [getPermanentSourceFile, hnc]

/-- Witness for the read-failure behaviour at a concrete uncached name. -/
theorem read_failure_reporting_witness :
    getPermanentSourceFile (fun _ => ReadResult.missing) [] "f.ts" 2 false
      = Except.error ("error reading file " ++ "f.ts") :=
  (read_failure_reporting [] "f.ts" 2 rfl).2.2.2

/-- Claim C6, counterexample: a missing on-disk file with no error callback
does abort — the host throws instead of proceeding with empty text, contrary
to the claim that the build never aborts whether or not a callback was
provided. -/
theorem missing_file_without_callback_aborts :
    getPermanentSourceFile sysAllMissing [] "lib.d.ts" 2 false
      = Except.error "error reading file lib.d.ts" := rfl

/-- Claim C7: when the containing file is one of the call's in-memory sources
(its name relative to the current directory is a key of the in-memory map),
each specifier is resolved first as `<specifier>.ts`, then as
`<specifier>.d.ts` against the in-memory set, and only when neither is
present does resolution fall back to the engine's standard algorithm; when
the containing file is not an in-memory source the engine's algorithm is used
directly; `resolveModuleNames` applies this resolution to every requested
specifier. -/
theorem resolveModuleNames_in_memory_priority (sts : SourceTexts) (cwd : String)
    (engineResolve : String → String → Option String) (containingFile m : String) :
    ((inMemoryContainingFile sts cwd containingFile = true →
        ((sts.lookup (m ++ ".ts")).isSome = true →
            resolveModuleName1 sts (inMemoryContainingFile sts cwd containingFile)
              engineResolve containingFile m = some (m ++ ".ts"))
        ∧ ((sts.lookup (m ++ ".ts")).isSome = false →
            (sts.lookup (m ++ ".d.ts")).isSome = true →
            resolveModuleName1 sts (inMemoryContainingFile sts cwd containingFile)
              engineResolve containingFile m = some (m ++ ".d.ts"))
        ∧ ((sts.lookup (m ++ ".ts")).isSome = false →
            (sts.lookup (m ++ ".d.ts")).isSome = false →
            resolveModuleName1 sts (inMemoryContainingFile sts cwd containingFile)
              engineResolve containingFile m = engineResolve m containingFile))
      ∧ (inMemoryContainingFile sts cwd containingFile = false →
          resolveModuleName1 sts (inMemoryContainingFile sts cwd containingFile)
            engineResolve containingFile m = engineResolve m containingFile))
    ∧ (∀ ms : List String, resolveModuleNames sts cwd engineResolve ms containingFile
        = ms.map (resolveModuleName1 sts (inMemoryContainingFile sts cwd containingFile)
            engineResolve containingFile)) := by
  refine ⟨⟨fun hl => ⟨fun h1 => ?_, fun h1 h2 => ?_, fun h1 h2 => ?_⟩, fun hl => ?_⟩,
    fun ms => rfl⟩
  · rw [hl]
    simp [resolveModuleName1, h1]
  · rw [hl]
    simp [resolveModuleName1, h1, h2]
  · rw [hl]
    simp [resolveModuleName1, h1, h2]
  · rw [hl]
    simp [resolveModuleName1]

/-- Witness: with in-memory sources `A.ts` and `B.ts` and containing file
`/cwd/B.ts`, the specifier `A` resolves to the in-memory `A.ts`. -/
theorem resolveModuleNames_in_memory_priority_witness :
    resolveModuleName1 stsImports (inMemoryContainingFile stsImports "/cwd" "/cwd/B.ts")
      (fun _ _ => none) "/cwd/B.ts" "A" = some ("A" ++ ".ts") :=
  ((resolveModuleNames_in_memory_priority stsImports "/cwd" (fun _ _ => none)
      "/cwd/B.ts" "A").1.1 (by decide)).1 (by decide)

/-- Claim C8: `formatDiagnostic` renders `<location><category> TS<code>:
<message>`; the location's file-name part is empty when the diagnostic has no
file, the line/column part `(<line+1>,<column+1>): ` is computed from the
character offset only when the offset is non-negative, and the file name is
replaced by the literal token exactly when a distinguished source file is
bound (as the single-string result does with its synthetic file) and the
diagnostic's file is that file — while the map-shaped result's formatter
binds none, so no substitution ever happens there. -/
theorem formatDiagnostic_location_and_source_token (d : TsDiagnostic)
    (sfOpt : Option SourceFile) :
    (formatDiagnostic d sfOpt
        = diagnosticFileName d sfOpt ++ diagnosticLineCol d ++ d.category.name
            ++ " TS" ++ toString d.code ++ ": " ++ d.messageText)
    ∧ (d.file = none → diagnosticFileName d sfOpt = "" ∧ diagnosticLineCol d = "")
    ∧ (∀ f, d.file = some f →
        diagnosticFileName d none = f.fileName
        ∧ (∀ sf, diagnosticFileName d (some sf) = if f = sf then "<source>" else f.fileName)
        ∧ (d.start = none → diagnosticLineCol d = "")
        ∧ (∀ s : Int, d.start = some s → s < 0 → diagnosticLineCol d = "")
        ∧ (∀ s : Int, d.start = some s → 0 ≤ s →
            diagnosticLineCol d
              = "(" ++ toString ((getLineAndCharacterOfPosition f s.toNat).1 + 1) ++ ","
                  ++ toString ((getLineAndCharacterOfPosition f s.toNat).2 + 1) ++ "): "))
    ∧ (∀ r : CallResult, r.resFormatDiagnostic d = formatDiagnostic d none)
    ∧ (∀ r : CompileResult,
        r.resFormatDiagnostic d = formatDiagnostic d (some r.sourceFile)) := by
  refine ⟨rfl, fun hn => ⟨?_, ?_⟩, fun f hf => ⟨?_, fun sf => ?_, fun hs => ?_,
    fun s hs hneg => ?_, fun s hs hpos => ?_⟩, fun r => rfl, fun r => rfl⟩
  · simp [diagnosticFileName, hn]
  · simp [diagnosticLineCol, hn]
  · simp [diagnosticFileName, hf]
  · simp [diagnosticFileName, hf]
  · simp [diagnosticLineCol, hf, hs]
  · simp [diagnosticLineCol, hf, hs, not_le.mpr hneg]
  · simp [diagnosticLineCol, hf, hs, hpos]

/-- Witness: the cannot-find-name diagnostic at offset 8 of `let x = z + 2`
formats its location as line 1, column 9. -/
theorem formatDiagnostic_location_and_source_token_witness :
    diagnosticLineCol diagCannotFindName
      = "(" ++ toString ((getLineAndCharacterOfPosition sfSynthetic (Int.toNat 8)).1 + 1) ++ ","
          ++ toString ((getLineAndCharacterOfPosition sfSynthetic (Int.toNat 8)).2 + 1) ++ "): " :=
  ((formatDiagnostic_location_and_source_token diagCannotFindName none).2.2.1 sfSynthetic
      rfl).2.2.2.2 8 rfl (by decide)

/-- Claim C9 (amended): when an explicit default-library directory was
configured, the host reports `<location>/<fileName or lib.d.ts>`; when none
was configured it reports the bare file name (`lib.d.ts` by default) with no
directory — it never consults the engine executable's location. -/
theorem getDefaultLibFileName_configured_or_bare :
    (∀ loc name : String, loc ≠ "" → name ≠ "" →
        getDefaultLibFileName (some loc) (some name) = (loc ++ "/") ++ name)
    ∧ (∀ loc : String, loc ≠ "" →
        getDefaultLibFileName (some loc) none = (loc ++ "/") ++ "lib.d.ts")
    ∧ (∀ name : String, name ≠ "" → getDefaultLibFileName none (some name) = name)
    ∧ getDefaultLibFileName none none = "lib.d.ts" := by
  refine ⟨fun loc name hl hn => ?_, fun loc hl => ?_, fun name hn => ?_, rfl⟩
  · simp [getDefaultLibFileName, hl, hn]
  · simp [getDefaultLibFileName, hl]
  · simp [getDefaultLibFileName, hn]

/-- Witness: a configured default-library directory is used verbatim. -/
theorem getDefaultLibFileName_configured_or_bare_witness :
    getDefaultLibFileName (some "node_modules/typescript/lib") none
      = ("node_modules/typescript/lib" ++ "/") ++ "lib.d.ts" :=
  getDefaultLibFileName_configured_or_bare.2.1 "node_modules/typescript/lib" (by decide)

/-- Claim C9, counterexample: with no configured default-library directory
the host of src/tsc-simple.ts reports the bare `lib.d.ts`, which is not
located in the directory of the engine's executable — unlike the derivation
`getDefaultLibLocation` of the src/simple-sys.ts host variant would give. -/
theorem default_lib_name_not_executable_derived :
    getDefaultLibFileName none none = "lib.d.ts"
    ∧ getDefaultLibLocationFromExecutable "/ts/lib/tsc.js" = "/ts/lib"
    ∧ strStartsWith "lib.d.ts" "/ts/lib" = false := by decide

/-- Claim C10: `compile(source)` and `parse(source)` wrap the input as the
single in-memory entry under the fixed synthetic name `$.ts`; the result's
distinguished source file is that entry (name `$.ts`, text the input), the
engine's program constructor receives `$.ts` as the sole in-memory root name,
and the emit writes reach the output sink exactly when one was supplied. -/
theorem single_string_uses_synthetic_name (cfg : CompilerConfig)
    (sysRead : String → ReadResult) (engine : EngineCall) (perm : PermMap)
    (source : String) (hasSink : Bool) :
    (∃ r, compile cfg sysRead engine perm source hasSink = .ok r
        ∧ r.sourceFile.fileName = "$.ts"
        ∧ r.sourceFile.text = source
        ∧ r.base.sourceTexts.map Prod.fst = ["$.ts"]
        ∧ r.base.rootNames = cfg.fileNames ++ ["$.ts"]
        ∧ r.base.writes.sunk = (if hasSink then engine.program.emitWrites else []))
    ∧ (∃ r, parse cfg sysRead engine perm source = .ok r
        ∧ r.sourceFile.fileName = "$.ts"
        ∧ r.sourceFile.text = source
        ∧ r.base.sourceTexts.map Prod.fst = ["$.ts"]) := by
  constructor
  · refine ⟨_, compileOrParseSource_eq cfg sysRead engine perm source hasSink false,
      rfl, rfl, rfl, rfl, ?_⟩
    show (compileOrParseMap cfg sysRead engine perm [("$.ts", source)] hasSink false).writes.sunk
      = _
    rw [compileOrParseMap_writes]
    rfl
  · exact ⟨_, compileOrParseSource_eq cfg sysRead engine perm source false true,
      rfl, rfl, rfl⟩

end TscSimple
